import Mathlib

/-!
Verification of the spectral-normalization utility (`lib/spectral_norm.py`).

The development shallowly embeds the Python source: tensors are a shape list
together with row-major flat data over `ℝ` plus autograd bookkeeping flags,
and a host layer (`torch.nn.Module`) is an explicit record of its parameter,
buffer and plain-attribute tables together with its registered forward
pre-hooks, mirroring `_parameters`, `_buffers`, the instance dict and
`_forward_pre_hooks`.  Fallible Python code (raising `ValueError`,
`AttributeError`, ...) is embedded into `Except`, with the error value also
carrying the module state at the moment of the raise.

The scalar type is `ℝ` (the usual idealization of the floating-point
arithmetic of the source), so the definitions are `noncomputable` in the
technical Lean sense; concrete instances are still evaluated exactly in the
theorems below via `simp` / `norm_num`.
-/

noncomputable section

/-- Association-list lookup keyed by decidable equality (models a Python
dict lookup). -/
def lookupS {α : Type} : List (String × α) → String → Option α
  | [], _ => none
  | (k, v) :: rest, n => if k = n then some v else lookupS rest n

/-- Replace the first entry with the given key, or append a new entry
(models `d[k] = v` on a Python dict, which preserves insertion order). -/
def setEntry {α : Type} : List (String × α) → String → α → List (String × α)
  | [], n, t => [(n, t)]
  | (k, v) :: rest, n, t => if k = n then (n, t) :: rest else (k, v) :: setEntry rest n t

/-- Remove the first entry with the given key (models `del d[k]`). -/
def removeEntry {α : Type} : List (String × α) → String → List (String × α)
  | [], _ => []
  | (k, v) :: rest, n => if k = n then rest else (k, v) :: removeEntry rest n

/-- Sum of squares of a list of reals. -/
def sumSq (l : List ℝ) : ℝ := (l.map (fun a => a * a)).sum

/-- Euclidean (L2) norm of a flat vector, as used by `torch.norm`. -/
def norm2 (l : List ℝ) : ℝ := Real.sqrt (sumSq l)

/-- The function `torch.nn.functional.normalize(x, dim=0, eps)` of the source: divide by
the L2 norm clamped below by `eps`. -/
def normalizeL (l : List ℝ) (eps : ℝ) : List ℝ :=
  l.map (fun a => a / max (norm2 l) eps)

/-- Dot product of two flat vectors (`torch.dot`). -/
def dotL (a b : List ℝ) : ℝ := ((a.zip b).map (fun p => p.1 * p.2)).sum

/-- A 2-D matrix in row-major flat storage, the result of
`weight_mat.reshape(height, -1)` in the source. -/
structure Mat where
  h : ℕ
  w : ℕ
  d : List ℝ

/-- Entry `(i, j)` of a row-major matrix. -/
def Mat.entry (M : Mat) (i j : ℕ) : ℝ := M.d.getD (i * M.w + j) 0

/-- Matrix–vector product `torch.matmul(weight_mat, v)`. -/
def Mat.mulVec (M : Mat) (x : List ℝ) : List ℝ :=
  (List.range M.h).map (fun i =>
    ((List.range M.w).map (fun j => M.entry i j * x.getD j 0)).sum)

/-- Transposed matrix–vector product `torch.matmul(weight_mat.t(), u)`. -/
def Mat.tmulVec (M : Mat) (x : List ℝ) : List ℝ :=
  (List.range M.w).map (fun j =>
    ((List.range M.h).map (fun i => M.entry i j * x.getD i 0)).sum)

/-- The Rayleigh-quotient estimate `sigma = torch.dot(u, torch.matmul(weight_mat, v))`
computed on line 43 of the source. -/
def computeSigma (M : Mat) (u v : List ℝ) : ℝ := dotL u (M.mulVec v)

/-- A tensor: shape, row-major flat data, the `requires_grad` flag, and
whether the tensor is attached to an autograd graph (has a `grad_fn`).
Leaf tensors have `graph = false`; a differentiable-op result built in grad
mode from an input that requires grad has `graph = true`. -/
structure Tensor where
  shape : List ℕ
  data : List ℝ
  requires_grad : Bool
  graph : Bool

/-- The Python `tensor.data` attribute: shares the stored values but is
outside the autograd graph. -/
def Tensor.dataTensor (t : Tensor) : Tensor := ⟨t.shape, t.data, false, false⟩

/-- Python `tensor.detach()`: same values, `requires_grad = false`, no graph. -/
def Tensor.detach (t : Tensor) : Tensor := ⟨t.shape, t.data, false, false⟩

/-- Python `tensor.requires_grad_(b)`: set the `requires_grad` flag in place. -/
def Tensor.requires_grad_ (t : Tensor) (b : Bool) : Tensor :=
  ⟨t.shape, t.data, b, t.graph⟩

/-- Python `torch.nn.Parameter(t)`: a leaf tensor with `requires_grad = True`
(the default of the constructor). -/
def Tensor.mkParam (t : Tensor) : Tensor := ⟨t.shape, t.data, true, false⟩

/-- Row-major flattening of a multi-index against a shape. -/
def flatIndex (s idx : List ℕ) : ℕ :=
  ((s.zip idx).foldl (fun acc p => acc * p.1 + p.2) 0)

/-- Inverse of `flatIndex`: split a flat offset into a multi-index. -/
def unflatten : List ℕ → ℕ → List ℕ
  | [], _ => []
  | _ :: rest, n => n / rest.prod :: unflatten rest (n % rest.prod)

/-- Insert an element at a position in a list. -/
def insertAt {α : Type} : ℕ → α → List α → List α
  | 0, a, l => a :: l
  | _ + 1, a, [] => [a]
  | n + 1, a, x :: l => x :: insertAt n a l

/-- Remove the element at a position in a list. -/
def removeAt {α : Type} : ℕ → List α → List α
  | _, [] => []
  | 0, _ :: l => l
  | n + 1, x :: l => x :: removeAt n l

/-- The expression `weight_mat.permute(self.dim, *[d for d in range(weight_mat.dim()) if d != self.dim])`
followed by materialization: dimension `d` is moved to the front and the
data is laid out contiguously for the permuted view. -/
def Tensor.permuteToFront (d : ℕ) (t : Tensor) : Tensor :=
  let newShape := t.shape.getD d 0 :: removeAt d t.shape
  { shape := newShape
    data := (List.range newShape.prod).map (fun n =>
      let idx := unflatten newShape n
      t.data.getD (flatIndex t.shape (insertAt d (idx.headD 0) idx.tail)) 0)
    requires_grad := t.requires_grad
    graph := t.graph }

/-- The configuration record of the `SpectralNorm` wrapper object:
attribute name, output dimension, numerical epsilon. -/
structure SpectralNorm where
  name : String
  dim : ℕ
  eps : ℝ

/-- The Python errors raised by the source: `ValueError`, `AttributeError`,
`KeyError`, `TypeError`, `IndexError` (each with a payload string). -/
inductive PyError where
  | valueError (msg : String)
  | attributeError (name : String)
  | keyError (name : String)
  | typeError (name : String)
  | indexError (msg : String)

/-- A non-tensor instance-dict attribute of a module: the only one the
source installs is the bound power-iteration method. -/
inductive ModAttr where
  | tensor (t : Tensor)
  | powerIterMethod (sn : SpectralNorm)

/-- A registered forward pre-hook: either a `SpectralNorm` wrapper or some
foreign hook. -/
inductive Hook where
  | sn (h : SpectralNorm)
  | other (tag : ℕ)

/-- The class of the host layer, as far as `isinstance` checks in the
source care: the transposed-convolution family versus anything else. -/
inductive ModuleKind where
  | convTranspose1d
  | convTranspose2d
  | convTranspose3d
  | other
deriving DecidableEq

/-- A host `torch.nn.Module`: its `_parameters` and `_buffers` dicts, its
instance dict, its `_forward_pre_hooks` dict (keyed by handle id), its
`training` flag, its class, and the next hook handle id. -/
structure NNModule where
  kind : ModuleKind
  training : Bool
  params : List (String × Tensor)
  buffers : List (String × Tensor)
  attrs : List (String × ModAttr)
  pre_hooks : List (ℕ × Hook)
  nextHookId : ℕ

/-- Python `getattr(module, n)` restricted to tensor results: the instance dict is
consulted first, then `_parameters`, then `_buffers` (names registered by
the source live in exactly one of these). -/
def getattrT (m : NNModule) (n : String) : Option Tensor :=
  match lookupS m.attrs n with
  | some (.tensor t) => some t
  | some (.powerIterMethod _) => none
  | none =>
    match lookupS m.params n with
    | some t => some t
    | none => lookupS m.buffers n

/-- Python `setattr(module, n, t)` for a plain (non-Parameter) tensor value,
following `torch.nn.Module.__setattr__`: assigning over a registered
parameter raises `TypeError`; a name registered as a buffer is updated in
`_buffers`; otherwise the value lands in the instance dict. -/
def setattrT (m : NNModule) (n : String) (t : Tensor) :
    Except (PyError × NNModule) NNModule :=
  if (lookupS m.params n).isSome then .error (.typeError n, m)
  else if (lookupS m.buffers n).isSome then
    .ok { m with buffers := setEntry m.buffers n t }
  else .ok { m with attrs := setEntry m.attrs n (.tensor t) }

/-- Python `delattr(module, n)`, following `torch.nn.Module.__delattr__`:
`_parameters` first, then `_buffers`, then the instance dict; raising
`AttributeError` when the name is nowhere. -/
def delattrE (m : NNModule) (n : String) : Except (PyError × NNModule) NNModule :=
  if (lookupS m.params n).isSome then .ok { m with params := removeEntry m.params n }
  else if (lookupS m.buffers n).isSome then .ok { m with buffers := removeEntry m.buffers n }
  else if (lookupS m.attrs n).isSome then .ok { m with attrs := removeEntry m.attrs n }
  else .error (.attributeError n, m)

/-- Python `module.register_parameter(n, t)`. -/
def registerParameter (m : NNModule) (n : String) (t : Tensor) : NNModule :=
  { m with params := setEntry m.params n t }

/-- Python `module.register_buffer(n, t)`. -/
def registerBuffer (m : NNModule) (n : String) (t : Tensor) : NNModule :=
  { m with buffers := setEntry m.buffers n t }

/-- Python `setattr(module, n, method)` for a non-tensor value: goes to the
instance dict. -/
def setMethodAttr (m : NNModule) (n : String) (sn : SpectralNorm) : NNModule :=
  { m with attrs := setEntry m.attrs n (.powerIterMethod sn) }

/-- Python `module.register_forward_pre_hook(h)`: appended under a fresh handle id. -/
def registerForwardPreHook (m : NNModule) (h : Hook) : NNModule :=
  { m with pre_hooks := m.pre_hooks ++ [(m.nextHookId, h)], nextHookId := m.nextHookId + 1 }

/-- The module-level constant `POWER_ITERATION_FN` of the source. -/
def POWER_ITERATION_FN : String := "spectral_norm_power_iteration"

/-- The message of the `ValueError` raised for a negative iteration count
(line 19 of the source). -/
def negIterMsg (k : ℤ) : String :=
  "Expected n_power_iterations to be non-negative, but got n_power_iterations=" ++ toString k

/-- One pass of the power-iteration loop body of the source, run under
`torch.no_grad()` (so the produced tensors carry no grad information):
`v = normalize(matmul(weight_mat.t(), u)); u = normalize(matmul(weight_mat, v))`. -/
def powerIterStep (M : Mat) (eps : ℝ) (uv : Tensor × Tensor) : Tensor × Tensor :=
  let vNew : Tensor := ⟨[M.w], normalizeL (M.tmulVec uv.1.data) eps, false, false⟩
  let uNew : Tensor := ⟨[M.h], normalizeL (M.mulVec vNew.data) eps, false, false⟩
  (uNew, vNew)

/-- The `for _ in range(n_power_iterations)` loop of the source over the state
`(u, v)`. -/
def powerIterLoop (M : Mat) (eps : ℝ) : ℕ → Tensor × Tensor → Tensor × Tensor
  | 0, uv => uv
  | n + 1, uv => powerIterLoop M eps n (powerIterStep M eps uv)

/-- Source method `SpectralNorm.compute_weight(module, n_power_iterations)` (lines 17-45
of the source): reject a negative count, read `name_orig`, `name_u`,
`name_v`, permute the chosen dimension to the front when it is not already,
reshape to `(height, -1)`, run the power-iteration loop, store `u` and `v`
back, and set the public attribute to the original weight divided by
`sigma`. -/
def SpectralNorm.compute_weight (sn : SpectralNorm) (m : NNModule) (k : ℤ) :
    Except (PyError × NNModule) NNModule :=
  if k < 0 then .error (.valueError (negIterMsg k), m)
  else
    match getattrT m (sn.name ++ "_orig") with
    | none => .error (.attributeError (sn.name ++ "_orig"), m)
    | some weight =>
      match getattrT m (sn.name ++ "_u") with
      | none => .error (.attributeError (sn.name ++ "_u"), m)
      | some u0 =>
        match getattrT m (sn.name ++ "_v") with
        | none => .error (.attributeError (sn.name ++ "_v"), m)
        | some v0 =>
          let weight_mat := if sn.dim ≠ 0 then Tensor.permuteToFront sn.dim weight else weight
          let height := weight_mat.shape.headD 0
          let M : Mat := ⟨height, weight_mat.shape.prod / height, weight_mat.data⟩
          let uv := powerIterLoop M sn.eps k.toNat (u0, v0)
          do
          let m1 ← setattrT m (sn.name ++ "_u") uv.1
          let m2 ← setattrT m1 (sn.name ++ "_v") uv.2
          let sigma := computeSigma M uv.1.data uv.2.data
          let sigmaRG := uv.1.requires_grad || (weight.requires_grad || uv.2.requires_grad)
          let newW : Tensor :=
            ⟨weight.shape, weight.data.map (fun a => a / sigma),
             weight.requires_grad || sigmaRG, weight.requires_grad || sigmaRG⟩
          setattrT m2 sn.name newW

/-- Source method `SpectralNorm.remove(module)` (lines 47-52): read the tensor under the
public name, delete the public name, `name_u` and `name_orig`, and register
a fresh `Parameter` wrapping the tensor that was read. -/
def SpectralNorm.remove (sn : SpectralNorm) (m : NNModule) :
    Except (PyError × NNModule) NNModule :=
  match getattrT m sn.name with
  | none => .error (.attributeError sn.name, m)
  | some weight => do
    let m1 ← delattrE m sn.name
    let m2 ← delattrE m1 (sn.name ++ "_u")
    let m3 ← delattrE m2 (sn.name ++ "_orig")
    .ok (registerParameter m3 sn.name (Tensor.mkParam weight))

/-- The bound method installed under `POWER_ITERATION_FN`
(`get_update_method`, lines 54-58): `update_fn(module, n)` simply calls
`compute_weight(module, n)`. -/
def callPowerIterationMethod (m : NNModule) (k : ℤ) :
    Except (PyError × NNModule) NNModule :=
  match lookupS m.attrs POWER_ITERATION_FN with
  | some (.powerIterMethod sn) => sn.compute_weight m k
  | _ => .error (.attributeError POWER_ITERATION_FN, m)

/-- Source method `SpectralNorm.__call__(module, unused_inputs)` (lines 60-67), the
forward pre-hook: rescale with zero extra iterations; in inference mode
replace the public weight by a detached copy carrying the original
`requires_grad` flag of the original parameter. -/
def SpectralNorm.call (sn : SpectralNorm) (m : NNModule) :
    Except (PyError × NNModule) NNModule := do
  let m1 ← sn.compute_weight m 0
  if m1.training then .ok m1
  else
    match getattrT m1 (sn.name ++ "_orig") with
    | none => .error (.attributeError (sn.name ++ "_orig"), m1)
    | some worig =>
      match getattrT m1 sn.name with
      | none => .error (.attributeError sn.name, m1)
      | some w => setattrT m1 sn.name ((w.detach).requires_grad_ worig.requires_grad)

/-- Run one hook (foreign hooks are no-ops for the state we model). -/
def runHook : Hook → NNModule → Except (PyError × NNModule) NNModule
  | .sn h, m => h.call m
  | .other _, m => .ok m

/-- Run a list of forward pre-hooks in order. -/
def runHooksList : List (ℕ × Hook) → NNModule → Except (PyError × NNModule) NNModule
  | [], m => .ok m
  | (_, h) :: rest, m => (runHook h m).bind (runHooksList rest)

/-- One forward pass, as far as the weight bookkeeping is concerned: the
framework fires every registered forward pre-hook in order. -/
def runForwardPreHooks (m : NNModule) : Except (PyError × NNModule) NNModule :=
  runHooksList m.pre_hooks m

/-- Source method `SpectralNorm.apply(module, name, dim, eps)` (lines 69-91).  The two
`normal_(0, 1)` random draws are supplied as oracle inputs `u0`, `v0`. -/
def SpectralNorm.apply (m : NNModule) (name : String) (dim : ℕ) (eps : ℝ)
    (u0 v0 : List ℝ) : Except (PyError × NNModule) (NNModule × SpectralNorm) :=
  let fn : SpectralNorm := ⟨name, dim, eps⟩
  match lookupS m.params name with
  | none => .error (.keyError name, m)
  | some weight =>
    if dim < weight.shape.length then
      let height := weight.shape.getD dim 0
      let uT : Tensor := ⟨[height], normalizeL u0 eps, false, false⟩
      let vT : Tensor := ⟨[weight.shape.prod / height], normalizeL v0 eps, false, false⟩
      do
      let m1 ← delattrE m fn.name
      let m2 := registerParameter m1 (fn.name ++ "_orig") weight
      let m3 := registerBuffer m2 fn.name weight.dataTensor
      let m4 := registerBuffer m3 (fn.name ++ "_u") uT
      let m5 := registerBuffer m4 (fn.name ++ "_v") vT
      let m6 := setMethodAttr m5 POWER_ITERATION_FN fn
      .ok (registerForwardPreHook m6 (.sn fn), fn)
    else .error (.indexError "dimension out of range", m)

/-- Source function `inplace_spectral_norm(module, name, dim, eps)` (lines 94-148): resolve
the default dimension (1 for the transposed-convolution family, else 0),
apply, and return the same module. -/
def inplace_spectral_norm (m : NNModule) (name : String) (dim : Option ℕ) (eps : ℝ)
    (u0 v0 : List ℝ) : Except (PyError × NNModule) NNModule :=
  let d := match dim with
    | none =>
      if m.kind = .convTranspose1d ∨ m.kind = .convTranspose2d ∨ m.kind = .convTranspose3d
      then 1 else 0
    | some d0 => d0
  (SpectralNorm.apply m name d eps u0 v0).map Prod.fst

/-- The message of the `ValueError` raised by `remove_spectral_norm` when
no matching wrapper is registered (line 162 of the source, quotes elided). -/
def notFoundMsg (name : String) : String :=
  "spectral_norm of " ++ name ++ " not found in module"

/-- The loop of `remove_spectral_norm` (lines 156-160): find the first
forward pre-hook that is a `SpectralNorm` with the requested name. -/
def findSNHook : List (ℕ × Hook) → String → Option (ℕ × SpectralNorm)
  | [], _ => none
  | (k, .sn h) :: rest, name =>
    if h.name = name then some (k, h) else findSNHook rest name
  | (_, .other _) :: rest, name => findSNHook rest name

/-- Remove an entry from the hook dict by handle id. -/
def removeHookKey : List (ℕ × Hook) → ℕ → List (ℕ × Hook)
  | [], _ => []
  | (k, v) :: rest, n => if k = n then rest else (k, v) :: removeHookKey rest n

/-- Source function `remove_spectral_norm(module, name)` (lines 151-162): locate the
matching wrapper among the forward pre-hooks; if found, run its `remove`
and delete the hook entry; otherwise raise `ValueError`. -/
def remove_spectral_norm (m : NNModule) (name : String) :
    Except (PyError × NNModule) NNModule :=
  match findSNHook m.pre_hooks name with
  | none => .error (.valueError (notFoundMsg name), m)
  | some (k, sn) => (sn.remove m).map (fun m1 =>
      { m1 with pre_hooks := removeHookKey m1.pre_hooks k })

/-- Specification-side description of the power-iteration rescale,
following section 4.2 of the design document word for word: the original
weight is always reshaped so the chosen output dimension is first and all
remaining dimensions are flattened into one, giving `M` of shape
`(height, width)`; then `k` alternating normalize-updates of `v` and `u`,
the updated vectors are stored back, `sigma` is the Rayleigh quotient, and
the public weight becomes the original weight divided by `sigma`. -/
def SpectralNorm.compute_weight_spec (sn : SpectralNorm) (m : NNModule) (k : ℤ) :
    Except (PyError × NNModule) NNModule :=
  if k < 0 then .error (.valueError (negIterMsg k), m)
  else
    match getattrT m (sn.name ++ "_orig") with
    | none => .error (.attributeError (sn.name ++ "_orig"), m)
    | some weight =>
      match getattrT m (sn.name ++ "_u") with
      | none => .error (.attributeError (sn.name ++ "_u"), m)
      | some u0 =>
        match getattrT m (sn.name ++ "_v") with
        | none => .error (.attributeError (sn.name ++ "_v"), m)
        | some v0 =>
          let weight_mat := Tensor.permuteToFront sn.dim weight
          let height := weight_mat.shape.headD 0
          let M : Mat := ⟨height, weight_mat.shape.prod / height, weight_mat.data⟩
          let uv := powerIterLoop M sn.eps k.toNat (u0, v0)
          do
          let m1 ← setattrT m (sn.name ++ "_u") uv.1
          let m2 ← setattrT m1 (sn.name ++ "_v") uv.2
          let sigma := computeSigma M uv.1.data uv.2.data
          let sigmaRG := uv.1.requires_grad || (weight.requires_grad || uv.2.requires_grad)
          let newW : Tensor :=
            ⟨weight.shape, weight.data.map (fun a => a / sigma),
             weight.requires_grad || sigmaRG, weight.requires_grad || sigmaRG⟩
          setattrT m2 sn.name newW

/-- The canonical attached state for name `n`: `n_orig` is a parameter; the
public name, `n_u` and `n_v` are buffers; none of the four names is
shadowed by the instance dict or (except `n_orig`) by `_parameters`. -/
def Attached (m : NNModule) (n : String) : Prop :=
  (lookupS m.attrs n).isNone = true ∧
  (lookupS m.attrs (n ++ "_orig")).isNone = true ∧
  (lookupS m.attrs (n ++ "_u")).isNone = true ∧
  (lookupS m.attrs (n ++ "_v")).isNone = true ∧
  (lookupS m.params n).isNone = true ∧
  (lookupS m.params (n ++ "_u")).isNone = true ∧
  (lookupS m.params (n ++ "_v")).isNone = true ∧
  (lookupS m.params (n ++ "_orig")).isSome = true ∧
  (lookupS m.buffers n).isSome = true ∧
  (lookupS m.buffers (n ++ "_u")).isSome = true ∧
  (lookupS m.buffers (n ++ "_v")).isSome = true

/-! ### Association-list lemmas -/

theorem lookupS_setEntry_self {α : Type} (l : List (String × α)) (n : String) (t : α) :
    lookupS (setEntry l n t) n = some t := by
  induction l with
  | nil => simp [setEntry, lookupS]
  | cons p rest ih =>
    obtain ⟨k, v⟩ := p
    by_cases h : k = n
    · simp [setEntry, h, lookupS]
    · simp [setEntry, h, lookupS, ih]

theorem lookupS_setEntry_ne {α : Type} (l : List (String × α)) (n n' : String) (t : α)
    (h : n' ≠ n) : lookupS (setEntry l n t) n' = lookupS l n' := by
  induction l with
  | nil => simp [setEntry, lookupS, Ne.symm h]
  | cons p rest ih =>
    obtain ⟨k, v⟩ := p
    by_cases hk : k = n
    · subst hk
      simp [setEntry, lookupS, Ne.symm h]
    · simp only [setEntry, if_neg hk, lookupS]
      by_cases hk' : k = n'
      · simp [hk']
      · simp [hk', ih]

theorem setEntry_lookup_eq {α : Type} (l : List (String × α)) (n : String) (t : α)
    (h : lookupS l n = some t) : setEntry l n t = l := by
  induction l with
  | nil => simp [lookupS] at h
  | cons p rest ih =>
    obtain ⟨k, v⟩ := p
    by_cases hk : k = n
    · subst hk
      have hv : v = t := by simpa [lookupS] using h
      subst hv
      simp [setEntry]
    · simp only [lookupS, if_neg hk] at h
      simp [setEntry, hk, ih h]

theorem lookupS_removeEntry_ne {α : Type} (l : List (String × α)) (n n' : String)
    (h : n' ≠ n) : lookupS (removeEntry l n) n' = lookupS l n' := by
  induction l with
  | nil => simp [removeEntry]
  | cons p rest ih =>
    obtain ⟨k, v⟩ := p
    by_cases hk : k = n
    · subst hk
      simp [removeEntry, lookupS, Ne.symm h]
    · simp only [removeEntry, if_neg hk, lookupS]
      by_cases hk' : k = n'
      · simp [hk']
      · simp [hk', ih]

/-! ### Distinctness of the derived attribute names -/

theorem self_ne_append (s a : String) (ha : a.data.length ≠ 0) : s ≠ s ++ a := by
  intro h
  have h2 := congrArg (fun t : String => t.data.length) h
  simp only [String.data_append, List.length_append] at h2
  omega

theorem append_ne_of_data_ne (s a b : String) (h : a.data ≠ b.data) : s ++ a ≠ s ++ b := by
  intro he
  have h2 := congrArg String.data he
  rw [String.data_append, String.data_append] at h2
  exact h (List.append_cancel_left h2)

theorem name_ne_u (s : String) : s ≠ s ++ "_u" := self_ne_append s "_u" (by decide)

theorem name_ne_v (s : String) : s ≠ s ++ "_v" := self_ne_append s "_v" (by decide)

theorem name_ne_orig (s : String) : s ≠ s ++ "_orig" := self_ne_append s "_orig" (by decide)

theorem u_ne_v (s : String) : s ++ "_u" ≠ s ++ "_v" := append_ne_of_data_ne s "_u" "_v" (by decide)

theorem u_ne_orig (s : String) : s ++ "_u" ≠ s ++ "_orig" :=
  append_ne_of_data_ne s "_u" "_orig" (by decide)

theorem v_ne_orig (s : String) : s ++ "_v" ≠ s ++ "_orig" :=
  append_ne_of_data_ne s "_v" "_orig" (by decide)

/-! ### Norm lemmas -/

theorem sumSq_nonneg (l : List ℝ) : 0 ≤ sumSq l := by
  induction l with
  | nil => simp [sumSq]
  | cons a rest ih =>
    simp only [sumSq, List.map_cons, List.sum_cons] at *
    nlinarith [mul_self_nonneg a]

theorem norm2_nonneg (l : List ℝ) : 0 ≤ norm2 l := Real.sqrt_nonneg _

theorem sumSq_map_div (l : List ℝ) (c : ℝ) :
    sumSq (l.map (fun a => a / c)) = sumSq l / (c * c) := by
  induction l with
  | nil => simp [sumSq]
  | cons a rest ih =>
    simp only [List.map_cons, sumSq, List.sum_cons]
    have ih' : ((rest.map (fun x => x / c)).map (fun a => a * a)).sum =
        (rest.map (fun a => a * a)).sum / (c * c) := ih
    rw [ih', div_mul_div_comm, div_add_div_same]

theorem norm2_normalizeL (l : List ℝ) (eps : ℝ) (h1 : 0 < eps) (h2 : eps ≤ norm2 l) :
    norm2 (normalizeL l eps) = 1 := by
  have hc : max (norm2 l) eps = norm2 l := max_eq_left h2
  have hpos : 0 < norm2 l := lt_of_lt_of_le h1 h2
  have hs : 0 < sumSq l := by
    have := Real.sqrt_pos.mp (by simpa [norm2] using hpos)
    exact this
  unfold normalizeL
  rw [hc]
  unfold norm2
  rw [sumSq_map_div]
  have hms : norm2 l * norm2 l = sumSq l := Real.mul_self_sqrt (sumSq_nonneg l)
  unfold norm2 at hms
  rw [hms, div_self (ne_of_gt hs), Real.sqrt_one]

/-! ### Row-major index flattening -/

theorem foldl_mulAdd_shift (ps : List (ℕ × ℕ)) :
    ∀ x : ℕ, ps.foldl (fun acc p => acc * p.1 + p.2) x =
      x * (ps.map Prod.fst).prod + ps.foldl (fun acc p => acc * p.1 + p.2) 0 := by
  induction ps with
  | nil => intro x; simp
  | cons p rest ih =>
    intro x
    obtain ⟨s, i⟩ := p
    simp only [List.foldl_cons, List.map_cons, List.prod_cons]
    rw [ih (x * s + i), ih (0 * s + i)]
    ring

theorem unflatten_length (s : List ℕ) (n : ℕ) : (unflatten s n).length = s.length := by
  induction s generalizing n with
  | nil => simp [unflatten]
  | cons a rest ih => simp [unflatten, ih]

theorem flatIndex_unflatten (s : List ℕ) (n : ℕ) (h : n < s.prod) :
    flatIndex s (unflatten s n) = n := by
  induction s generalizing n with
  | nil =>
    simp only [List.prod_nil, Nat.lt_one_iff] at h
    simp [flatIndex, unflatten, h]
  | cons a rest ih =>
    by_cases hp : rest.prod = 0
    · exfalso
      rw [List.prod_cons, hp, Nat.mul_zero] at h
      exact Nat.not_lt_zero n h
    · have hppos : 0 < rest.prod := Nat.pos_of_ne_zero hp
      have hmod : n % rest.prod < rest.prod := Nat.mod_lt n hppos
      have hlen : rest.length ≤ (unflatten rest (n % rest.prod)).length := by
        rw [unflatten_length]
      simp only [unflatten, flatIndex, List.zip_cons_cons, List.foldl_cons]
      rw [foldl_mulAdd_shift]
      have hmap : ((rest.zip (unflatten rest (n % rest.prod))).map Prod.fst) = rest :=
        List.map_fst_zip rest _ hlen
      rw [hmap]
      have hrec : flatIndex rest (unflatten rest (n % rest.prod)) = n % rest.prod :=
        ih _ hmod
      unfold flatIndex at hrec
      rw [hrec]
      simp only [Nat.zero_mul, Nat.zero_add]
      rw [Nat.mul_comm]
      exact Nat.div_add_mod n rest.prod

theorem range_map_getD (l : List ℝ) :
    (List.range l.length).map (fun n => l.getD n 0) = l := by
  apply List.ext_getElem
  · simp
  · intro i h1 h2
    simp only [List.getElem_map]
    have hi : i < l.length := h2
    rw [List.getElem_range]
    exact List.getD_eq_getElem l 0 hi

/-! ### Permuting dimension 0 to the front is the identity -/

theorem permuteToFront_zero (t : Tensor) (hne : t.shape ≠ [])
    (hlen : t.data.length = t.shape.prod) : Tensor.permuteToFront 0 t = t := by
  obtain ⟨shape, data, rg, gr⟩ := t
  simp only at hne hlen
  cases shape with
  | nil => simp at hne
  | cons s0 rest =>
    have hshape : ((s0 :: rest).getD 0 0 :: removeAt 0 (s0 :: rest)) = s0 :: rest := by
      simp [removeAt]
    have hins : ∀ n : ℕ,
        insertAt 0 ((unflatten (s0 :: rest) n).headD 0) (unflatten (s0 :: rest) n).tail
          = unflatten (s0 :: rest) n := by
      intro n
      simp [unflatten, insertAt]
    have hdata : (List.range ((s0 :: rest).prod)).map (fun n =>
        data.getD (flatIndex (s0 :: rest)
          (insertAt 0 ((unflatten (s0 :: rest) n).headD 0) (unflatten (s0 :: rest) n).tail)) 0)
        = data := by
      have h1 : ∀ n ∈ List.range ((s0 :: rest).prod),
          data.getD (flatIndex (s0 :: rest)
            (insertAt 0 ((unflatten (s0 :: rest) n).headD 0)
              (unflatten (s0 :: rest) n).tail)) 0
          = data.getD n 0 := by
        intro n hn
        rw [List.mem_range] at hn
        rw [hins n, flatIndex_unflatten _ _ hn]
      rw [List.map_congr_left h1, ← hlen]
      exact range_map_getD data
    simp only [Tensor.permuteToFront]
    rw [hshape, hdata]

/-- C3: `compute_weight` implements exactly the algorithm of the spec: the
weight is reshaped so the chosen output dimension comes first with all
remaining dimensions flattened into one 2-D matrix, `k` alternating
normalized power-iteration updates of `v` then `u` are run, the updated
`u`, `v` are stored back into the carried state of the module, `sigma` is the
Rayleigh quotient `u^T M v`, and the public weight becomes the original
weight divided by `sigma`.  Formally: for a module whose original weight is
well-formed (its flat data has exactly `shape.prod` elements and its shape
is nonempty), `compute_weight` coincides with the specification-side
definition `compute_weight_spec`, which permutes the chosen dimension to
the front unconditionally, for every iteration count `k`. -/
theorem C3_compute_weight_matches_spec (sn : SpectralNorm) (m : NNModule) (k : ℤ)
    (w : Tensor) (hw : getattrT m (sn.name ++ "_orig") = some w)
    (hlen : w.data.length = w.shape.prod) (hne : w.shape ≠ []) :
    sn.compute_weight m k = sn.compute_weight_spec m k := by
  unfold SpectralNorm.compute_weight SpectralNorm.compute_weight_spec
  rw [hw]
  by_cases hd : sn.dim = 0
  · rw [hd]
    simp only [ne_eq, not_true_eq_false, if_false]
    rw [permuteToFront_zero w hne hlen]
  · simp only [ne_eq, hd, not_false_eq_true, if_true]

/-- C9: when `inplace_spectral_norm` is called without an explicit
dimension, the dimension it applies with is 1 exactly for the
transposed-convolution family (`ConvTranspose1d/2d/3d`) and 0 for every
other module class, and the result of the function is the very module that
`SpectralNorm.apply` instrumented (it returns the layer it was given, not a
copy). -/
theorem C9_default_dimension (m : NNModule) (name : String) (eps : ℝ) (u0 v0 : List ℝ) :
    inplace_spectral_norm m name none eps u0 v0 =
      (SpectralNorm.apply m name
        (if m.kind = .convTranspose1d ∨ m.kind = .convTranspose2d ∨ m.kind = .convTranspose3d
          then 1 else 0) eps u0 v0).map Prod.fst := rfl

/-! ### Zero-iteration characterization of `compute_weight` on attached states -/

theorem ok_bind {ε α β : Type} (a : α) (f : α → Except ε β) :
    (Except.ok a : Except ε α) >>= f = f a := rfl

theorem error_bind {ε α β : Type} (e : ε) (f : α → Except ε β) :
    (Except.error e : Except ε α) >>= f = .error e := rfl

theorem map_ok {ε α β : Type} (f : α → β) (a : α) :
    Except.map f (Except.ok a : Except ε α) = .ok (f a) := rfl

/-- The reshaped matrix `M` that `compute_weight` builds from the original
weight. -/
def cwMat (sn : SpectralNorm) (w : Tensor) : Mat :=
  let weight_mat := if sn.dim ≠ 0 then Tensor.permuteToFront sn.dim w else w
  ⟨weight_mat.shape.headD 0, weight_mat.shape.prod / weight_mat.shape.headD 0, weight_mat.data⟩

/-- The normalized public weight written by a zero-iteration
`compute_weight` given original weight `w` and current vectors `u`, `v`. -/
def cwNewW (sn : SpectralNorm) (w u v : Tensor) : Tensor :=
  let sigma := computeSigma (cwMat sn w) u.data v.data
  let rg := u.requires_grad || (w.requires_grad || v.requires_grad)
  ⟨w.shape, w.data.map (fun a => a / sigma), w.requires_grad || rg, w.requires_grad || rg⟩

/-- The module state after a zero-iteration `compute_weight` on an attached
module: `u` and `v` are written back unchanged and the public buffer
becomes the original weight divided by the current `sigma`. -/
def cwZeroResult (sn : SpectralNorm) (m : NNModule) (w u v : Tensor) : NNModule :=
  { m with buffers :=
      (setEntry (setEntry (setEntry m.buffers (sn.name ++ "_u") u) (sn.name ++ "_v") v)
        sn.name (cwNewW sn w u v)) }

theorem compute_weight_zero_ok (sn : SpectralNorm) (m : NNModule)
    (h : Attached m sn.name) :
    ∃ w u v, lookupS m.params (sn.name ++ "_orig") = some w ∧
      lookupS m.buffers (sn.name ++ "_u") = some u ∧
      lookupS m.buffers (sn.name ++ "_v") = some v ∧
      sn.compute_weight m 0 = .ok (cwZeroResult sn m w u v) := by
  obtain ⟨ha0, hao, hau, hav, hp0, hpu, hpv, hpo, hb0, hbu, hbv⟩ := h
  rw [Option.isNone_iff_eq_none] at ha0 hao hau hav hp0 hpu hpv
  obtain ⟨w, hw⟩ := Option.isSome_iff_exists.mp hpo
  obtain ⟨wb, hwb⟩ := Option.isSome_iff_exists.mp hb0
  obtain ⟨u, hu⟩ := Option.isSome_iff_exists.mp hbu
  obtain ⟨v, hv⟩ := Option.isSome_iff_exists.mp hbv
  refine ⟨w, u, v, hw, hu, hv, ?_⟩
  have g1 : getattrT m (sn.name ++ "_orig") = some w := by
    unfold getattrT
    rw [hao, hw]
  have g2 : getattrT m (sn.name ++ "_u") = some u := by
    unfold getattrT
    rw [hau, hpu, hu]
  have g3 : getattrT m (sn.name ++ "_v") = some v := by
    unfold getattrT
    rw [hav, hpv, hv]
  unfold SpectralNorm.compute_weight
  rw [if_neg (by omega : ¬ (0:ℤ) < 0)]
  simp only [g1, g2, g3, powerIterLoop, Int.toNat]
  have s1 : setattrT m (sn.name ++ "_u") u = .ok { m with buffers := setEntry m.buffers (sn.name ++ "_u") u } := by
    unfold setattrT
    rw [hpu]
    simp [hbu]
  rw [s1, ok_bind]
  have s2 : setattrT { m with buffers := setEntry m.buffers (sn.name ++ "_u") u } (sn.name ++ "_v") v
      = .ok { m with buffers := setEntry (setEntry m.buffers (sn.name ++ "_u") u) (sn.name ++ "_v") v } := by
    unfold setattrT
    simp only [hpv]
    rw [lookupS_setEntry_ne _ _ _ _ (Ne.symm (u_ne_v sn.name))]
    simp [hbv]
  rw [s2, ok_bind]
  have s3 : setattrT { m with buffers := setEntry (setEntry m.buffers (sn.name ++ "_u") u) (sn.name ++ "_v") v } sn.name (cwNewW sn w u v)
      = .ok (cwZeroResult sn m w u v) := by
    unfold setattrT
    simp only [hp0]
    rw [lookupS_setEntry_ne _ _ _ _ (name_ne_v sn.name),
      lookupS_setEntry_ne _ _ _ _ (name_ne_u sn.name)]
    simp [hb0, cwZeroResult]
  exact s3

theorem attached_cwZeroResult (sn : SpectralNorm) (m : NNModule) (w u v : Tensor)
    (h : Attached m sn.name) : Attached (cwZeroResult sn m w u v) sn.name := by
  obtain ⟨ha0, hao, hau, hav, hp0, hpu, hpv, hpo, hb0, hbu, hbv⟩ := h
  refine ⟨ha0, hao, hau, hav, hp0, hpu, hpv, hpo, ?_, ?_, ?_⟩
  · show (lookupS (setEntry (setEntry (setEntry m.buffers (sn.name ++ "_u") u)
      (sn.name ++ "_v") v) sn.name (cwNewW sn w u v)) sn.name).isSome = true
    rw [lookupS_setEntry_self]
    rfl
  · show (lookupS (setEntry (setEntry (setEntry m.buffers (sn.name ++ "_u") u)
      (sn.name ++ "_v") v) sn.name (cwNewW sn w u v)) (sn.name ++ "_u")).isSome = true
    rw [lookupS_setEntry_ne _ _ _ _ (Ne.symm (name_ne_u sn.name)),
      lookupS_setEntry_ne _ _ _ _ (u_ne_v sn.name), lookupS_setEntry_self]
    rfl
  · show (lookupS (setEntry (setEntry (setEntry m.buffers (sn.name ++ "_u") u)
      (sn.name ++ "_v") v) sn.name (cwNewW sn w u v)) (sn.name ++ "_v")).isSome = true
    rw [lookupS_setEntry_ne _ _ _ _ (Ne.symm (name_ne_v sn.name)), lookupS_setEntry_self]
    rfl

theorem cwZeroResult_buffers_name (sn : SpectralNorm) (m : NNModule) (w u v : Tensor) :
    lookupS (cwZeroResult sn m w u v).buffers sn.name = some (cwNewW sn w u v) := by
  unfold cwZeroResult
  exact lookupS_setEntry_self _ _ _

theorem cwZeroResult_buffers_u (sn : SpectralNorm) (m : NNModule) (w u v : Tensor) :
    lookupS (cwZeroResult sn m w u v).buffers (sn.name ++ "_u") = some u := by
  unfold cwZeroResult
  rw [lookupS_setEntry_ne _ _ _ _ (Ne.symm (name_ne_u sn.name)),
    lookupS_setEntry_ne _ _ _ _ (u_ne_v sn.name), lookupS_setEntry_self]

theorem cwZeroResult_buffers_v (sn : SpectralNorm) (m : NNModule) (w u v : Tensor) :
    lookupS (cwZeroResult sn m w u v).buffers (sn.name ++ "_v") = some v := by
  unfold cwZeroResult
  rw [lookupS_setEntry_ne _ _ _ _ (Ne.symm (name_ne_v sn.name)), lookupS_setEntry_self]

theorem cwZeroResult_params (sn : SpectralNorm) (m : NNModule) (w u v : Tensor) :
    (cwZeroResult sn m w u v).params = m.params := rfl

theorem cwZeroResult_attrs (sn : SpectralNorm) (m : NNModule) (w u v : Tensor) :
    (cwZeroResult sn m w u v).attrs = m.attrs := rfl

theorem cwZeroResult_training (sn : SpectralNorm) (m : NNModule) (w u v : Tensor) :
    (cwZeroResult sn m w u v).training = m.training := rfl

theorem getattrT_buffer (m : NNModule) (x : String)
    (ha : lookupS m.attrs x = none) (hp : lookupS m.params x = none) :
    getattrT m x = lookupS m.buffers x := by
  unfold getattrT
  rw [ha, hp]

theorem getattrT_param (m : NNModule) (x : String)
    (ha : lookupS m.attrs x = none) (w : Tensor)
    (hp : lookupS m.params x = some w) : getattrT m x = some w := by
  unfold getattrT
  rw [ha, hp]

/-- C5: on a module with spectral normalization attached, the
zero-iteration rescale (`compute_weight` with `k = 0`, exactly what the
forward pre-hook performs) is idempotent: a second zero-iteration call with
no intervening refinement succeeds and returns the state of the first call
unchanged — in particular the normalized public weight is the same both
times — and the carried vectors `u` and `v` are left unchanged. -/
theorem C5_zero_iteration_idempotent (sn : SpectralNorm) (m : NNModule)
    (h : Attached m sn.name) :
    ∃ m1, sn.compute_weight m 0 = .ok m1 ∧
      sn.compute_weight m1 0 = .ok m1 ∧
      getattrT m1 (sn.name ++ "_u") = getattrT m (sn.name ++ "_u") ∧
      getattrT m1 (sn.name ++ "_v") = getattrT m (sn.name ++ "_v") := by
  obtain ⟨ha0, hao, hau, hav, hp0, hpu, hpv, hpo, hb0, hbu, hbv⟩ := h
  have h' : Attached m sn.name :=
    ⟨ha0, hao, hau, hav, hp0, hpu, hpv, hpo, hb0, hbu, hbv⟩
  obtain ⟨w, u, v, hw, hu, hv, hcw⟩ := compute_weight_zero_ok sn m h'
  have h1 : Attached (cwZeroResult sn m w u v) sn.name := attached_cwZeroResult sn m w u v h'
  obtain ⟨ka0, kao, kau, kav, kp0, kpu, kpv, kpo, kb0, kbu, kbv⟩ := h1
  have h1' : Attached (cwZeroResult sn m w u v) sn.name :=
    ⟨ka0, kao, kau, kav, kp0, kpu, kpv, kpo, kb0, kbu, kbv⟩
  obtain ⟨w2, u2, v2, hw2, hu2, hv2, hcw2⟩ :=
    compute_weight_zero_ok sn (cwZeroResult sn m w u v) h1'
  rw [cwZeroResult_params, hw] at hw2
  obtain rfl : w = w2 := Option.some.inj hw2
  rw [cwZeroResult_buffers_u] at hu2
  obtain rfl : u = u2 := Option.some.inj hu2
  rw [cwZeroResult_buffers_v] at hv2
  obtain rfl : v = v2 := Option.some.inj hv2
  have hfix : cwZeroResult sn (cwZeroResult sn m w u v) w u v = cwZeroResult sn m w u v := by
    show ({ cwZeroResult sn m w u v with buffers :=
        (setEntry (setEntry (setEntry (cwZeroResult sn m w u v).buffers (sn.name ++ "_u") u)
          (sn.name ++ "_v") v) sn.name (cwNewW sn w u v)) } : NNModule)
      = cwZeroResult sn m w u v
    rw [setEntry_lookup_eq _ _ _ (cwZeroResult_buffers_u sn m w u v),
      setEntry_lookup_eq _ _ _ (cwZeroResult_buffers_v sn m w u v),
      setEntry_lookup_eq _ _ _ (cwZeroResult_buffers_name sn m w u v)]
  refine ⟨cwZeroResult sn m w u v, hcw, ?_, ?_, ?_⟩
  · rw [hcw2, hfix]
  · rw [getattrT_buffer _ _ (Option.isNone_iff_eq_none.mp kau) (Option.isNone_iff_eq_none.mp kpu),
      getattrT_buffer _ _ (Option.isNone_iff_eq_none.mp hau) (Option.isNone_iff_eq_none.mp hpu),
      cwZeroResult_buffers_u, hu]
  · rw [getattrT_buffer _ _ (Option.isNone_iff_eq_none.mp kav) (Option.isNone_iff_eq_none.mp kpv),
      getattrT_buffer _ _ (Option.isNone_iff_eq_none.mp hav) (Option.isNone_iff_eq_none.mp hpv),
      cwZeroResult_buffers_v, hv]

/-- The module state produced by the inference-mode branch of the hook:
the public buffer is replaced by a detached copy of the rescaled weight
carrying the original `requires_grad` flag of the original parameter. -/
def hookDetachResult (sn : SpectralNorm) (m : NNModule) (w u v : Tensor) : NNModule :=
  { cwZeroResult sn m w u v with buffers :=
      (setEntry (cwZeroResult sn m w u v).buffers sn.name
        (((cwNewW sn w u v).detach).requires_grad_ w.requires_grad)) }

theorem hookDetachResult_attrs (sn : SpectralNorm) (m : NNModule) (w u v : Tensor) :
    (hookDetachResult sn m w u v).attrs = m.attrs := rfl

theorem hookDetachResult_params (sn : SpectralNorm) (m : NNModule) (w u v : Tensor) :
    (hookDetachResult sn m w u v).params = m.params := rfl

theorem hookDetachResult_buffers_u (sn : SpectralNorm) (m : NNModule) (w u v : Tensor) :
    lookupS (hookDetachResult sn m w u v).buffers (sn.name ++ "_u") = some u := by
  simp only [hookDetachResult]
  rw [lookupS_setEntry_ne _ _ _ _ (Ne.symm (name_ne_u sn.name)), cwZeroResult_buffers_u]

theorem hookDetachResult_buffers_v (sn : SpectralNorm) (m : NNModule) (w u v : Tensor) :
    lookupS (hookDetachResult sn m w u v).buffers (sn.name ++ "_v") = some v := by
  simp only [hookDetachResult]
  rw [lookupS_setEntry_ne _ _ _ _ (Ne.symm (name_ne_v sn.name)), cwZeroResult_buffers_v]

theorem hookDetachResult_buffers_name (sn : SpectralNorm) (m : NNModule) (w u v : Tensor) :
    lookupS (hookDetachResult sn m w u v).buffers sn.name
      = some (((cwNewW sn w u v).detach).requires_grad_ w.requires_grad) := by
  simp only [hookDetachResult]
  rw [lookupS_setEntry_self]

/-- C8: on an attached module, the forward pre-hook performs the rescale
with zero power iterations (leaving the carried `u`, `v` exactly as they
were), and — precisely when the module is in inference (non-training) mode
— replaces the public weight by a detached copy (no autograd graph) whose
`requires_grad` flag equals that of the original parameter and whose values
are those of the rescaled weight.  In training mode the result of the hook is
exactly the zero-iteration `compute_weight` state. -/
theorem C8_hook_zero_iterations_and_detach (sn : SpectralNorm) (m : NNModule)
    (h : Attached m sn.name) :
    ∃ m1 mf, sn.compute_weight m 0 = .ok m1 ∧ sn.call m = .ok mf ∧
      getattrT mf (sn.name ++ "_u") = getattrT m (sn.name ++ "_u") ∧
      getattrT mf (sn.name ++ "_v") = getattrT m (sn.name ++ "_v") ∧
      (m.training = true → mf = m1) ∧
      (m.training = false →
        ∃ worig w1, lookupS m.params (sn.name ++ "_orig") = some worig ∧
          getattrT m1 sn.name = some w1 ∧
          getattrT mf sn.name = some ((w1.detach).requires_grad_ worig.requires_grad) ∧
          ((w1.detach).requires_grad_ worig.requires_grad).graph = false ∧
          ((w1.detach).requires_grad_ worig.requires_grad).requires_grad
            = worig.requires_grad ∧
          ((w1.detach).requires_grad_ worig.requires_grad).data = w1.data) := by
  obtain ⟨ha0, hao, hau, hav, hp0, hpu, hpv, hpo, hb0, hbu, hbv⟩ := h
  have h' : Attached m sn.name :=
    ⟨ha0, hao, hau, hav, hp0, hpu, hpv, hpo, hb0, hbu, hbv⟩
  obtain ⟨w, u, v, hw, hu, hv, hcw⟩ := compute_weight_zero_ok sn m h'
  have h1 : Attached (cwZeroResult sn m w u v) sn.name := attached_cwZeroResult sn m w u v h'
  obtain ⟨ka0, kao, kau, kav, kp0, kpu, kpv, kpo, kb0, kbu, kbv⟩ := h1
  have gmu : getattrT m (sn.name ++ "_u") = some u := by
    rw [getattrT_buffer _ _ (Option.isNone_iff_eq_none.mp hau)
      (Option.isNone_iff_eq_none.mp hpu), hu]
  have gmv : getattrT m (sn.name ++ "_v") = some v := by
    rw [getattrT_buffer _ _ (Option.isNone_iff_eq_none.mp hav)
      (Option.isNone_iff_eq_none.mp hpv), hv]
  have g1u : getattrT (cwZeroResult sn m w u v) (sn.name ++ "_u") = some u := by
    rw [getattrT_buffer _ _ (Option.isNone_iff_eq_none.mp kau)
      (Option.isNone_iff_eq_none.mp kpu), cwZeroResult_buffers_u]
  have g1v : getattrT (cwZeroResult sn m w u v) (sn.name ++ "_v") = some v := by
    rw [getattrT_buffer _ _ (Option.isNone_iff_eq_none.mp kav)
      (Option.isNone_iff_eq_none.mp kpv), cwZeroResult_buffers_v]
  unfold SpectralNorm.call
  rw [hcw, ok_bind]
  cases htr : m.training with
  | true =>
    refine ⟨cwZeroResult sn m w u v, cwZeroResult sn m w u v, rfl, ?_, ?_, ?_, ?_, ?_⟩
    · rw [cwZeroResult_training, htr]
      rfl
    · rw [g1u, gmu]
    · rw [g1v, gmv]
    · intro _
      rfl
    · intro hcontra
      exact absurd hcontra (by simp)
  | false =>
    have gorig : getattrT (cwZeroResult sn m w u v) (sn.name ++ "_orig") = some w := by
      rw [getattrT_param _ _ (Option.isNone_iff_eq_none.mp kao) w]
      rw [cwZeroResult_params, hw]
    have gname : getattrT (cwZeroResult sn m w u v) sn.name = some (cwNewW sn w u v) := by
      rw [getattrT_buffer _ _ (Option.isNone_iff_eq_none.mp ka0)
        (Option.isNone_iff_eq_none.mp kp0), cwZeroResult_buffers_name]
    have hset : setattrT (cwZeroResult sn m w u v) sn.name
        (((cwNewW sn w u v).detach).requires_grad_ w.requires_grad)
        = .ok (hookDetachResult sn m w u v) := by
      unfold setattrT hookDetachResult
      rw [Option.isNone_iff_eq_none.mp kp0]
      have hks : (lookupS (cwZeroResult sn m w u v).buffers sn.name).isSome = true := kb0
      simp [hks]
    rw [cwZeroResult_training, htr]
    simp only [Bool.false_eq_true, if_false, gorig, gname, hset]
    refine ⟨cwZeroResult sn m w u v, hookDetachResult sn m w u v, rfl, rfl, ?_, ?_, ?_, ?_⟩
    · rw [getattrT_buffer (hookDetachResult sn m w u v) (sn.name ++ "_u") ?_ ?_, gmu,
        hookDetachResult_buffers_u]
      · rw [hookDetachResult_attrs]
        exact Option.isNone_iff_eq_none.mp hau
      · rw [hookDetachResult_params]
        exact Option.isNone_iff_eq_none.mp hpu
    · rw [getattrT_buffer (hookDetachResult sn m w u v) (sn.name ++ "_v") ?_ ?_, gmv,
        hookDetachResult_buffers_v]
      · rw [hookDetachResult_attrs]
        exact Option.isNone_iff_eq_none.mp hav
      · rw [hookDetachResult_params]
        exact Option.isNone_iff_eq_none.mp hpv
    · intro hcontra
      exact absurd hcontra (by simp)
    · intro _
      refine ⟨w, cwNewW sn w u v, hw, gname, ?_, rfl, rfl, rfl⟩
      rw [getattrT_buffer (hookDetachResult sn m w u v) sn.name ?_ ?_,
        hookDetachResult_buffers_name]
      · rw [hookDetachResult_attrs]
        exact Option.isNone_iff_eq_none.mp ha0
      · rw [hookDetachResult_params]
        exact Option.isNone_iff_eq_none.mp hp0

/-- C6: a negative iteration count is rejected with the InvalidArgument
`ValueError` carrying the message of the source, both on a direct
`compute_weight` call and through the manually invocable refinement method
installed on the layer under `POWER_ITERATION_FN`; a non-negative count
never produces that error (any failure it can produce is a different
exception). -/
theorem C6_negative_iterations_value_error :
    (∀ (sn : SpectralNorm) (m : NNModule) (k : ℤ), k < 0 →
      sn.compute_weight m k = .error (.valueError (negIterMsg k), m)) ∧
    (∀ (m : NNModule) (sn : SpectralNorm) (k : ℤ),
      lookupS m.attrs POWER_ITERATION_FN = some (.powerIterMethod sn) → k < 0 →
      callPowerIterationMethod m k = .error (.valueError (negIterMsg k), m)) ∧
    (∀ (sn : SpectralNorm) (m : NNModule) (k : ℤ), 0 ≤ k →
      ∀ (e : PyError) (mx : NNModule), sn.compute_weight m k = .error (e, mx) →
      ∀ j : ℤ, e ≠ .valueError (negIterMsg j)) := by
  refine ⟨?_, ?_, ?_⟩
  · intro sn m k hk
    unfold SpectralNorm.compute_weight
    rw [if_pos hk]
  · intro m sn k hm hk
    unfold callPowerIterationMethod
    simp only [hm]
    unfold SpectralNorm.compute_weight
    rw [if_pos hk]
  · intro sn m k hk e mx hcall j
    unfold SpectralNorm.compute_weight setattrT at hcall
    rw [if_neg (not_lt.mpr hk)] at hcall
    repeat'
      first
        | split at hcall
        | simp only [ok_bind, error_bind] at hcall
    all_goals
      first
        | exact Except.noConfusion hcall
        | (obtain ⟨he, -⟩ := (by simpa only [Except.error.injEq, Prod.mk.injEq] using hcall); subst he; simp)

/-- The loop of `remove_spectral_norm` only returns hooks whose name
matches the requested one. -/
theorem findSNHook_name (hs : List (ℕ × Hook)) (name : String) (k0 : ℕ)
    (sn : SpectralNorm) (h : findSNHook hs name = some (k0, sn)) : sn.name = name := by
  induction hs generalizing k0 sn with
  | nil => simp [findSNHook] at h
  | cons p rest ih =>
    obtain ⟨k1, hk⟩ := p
    cases hk with
    | sn h0 =>
      unfold findSNHook at h
      by_cases he : h0.name = name
      · rw [if_pos he] at h
        obtain ⟨-, rfl⟩ : k1 = k0 ∧ h0 = sn := by simpa using h
        exact he
      · rw [if_neg he] at h
        exact ih k0 sn h
    | other t =>
      unfold findSNHook at h
      exact ih k0 sn h

/-- C7: when no SpectralNorm wrapper with the requested name is registered
among the forward pre-hooks, `remove_spectral_norm` raises the descriptive
`ValueError` and the module state carried by the error is the unchanged
input module; when a matching wrapper is registered on an attached module,
removal succeeds and returns a module. -/
theorem C7_remove_not_found_or_ok :
    (∀ (m : NNModule) (name : String), findSNHook m.pre_hooks name = none →
      remove_spectral_norm m name = .error (.valueError (notFoundMsg name), m)) ∧
    (∀ (m : NNModule) (name : String) (k0 : ℕ) (sn : SpectralNorm),
      findSNHook m.pre_hooks name = some (k0, sn) → Attached m name →
      ∃ m2, remove_spectral_norm m name = .ok m2) := by
  constructor
  · intro m name hfind
    unfold remove_spectral_norm
    rw [hfind]
  · intro m name k0 sn hfind hatt
    obtain ⟨ha0, hao, hau, hav, hp0, hpu, hpv, hpo, hb0, hbu, hbv⟩ := hatt
    rw [Option.isNone_iff_eq_none] at ha0 hao hau hav hp0 hpu hpv
    obtain ⟨wb, hwb⟩ := Option.isSome_iff_exists.mp hb0
    have hname : sn.name = name := findSNHook_name _ _ _ _ hfind
    unfold remove_spectral_norm
    simp only [hfind]
    unfold SpectralNorm.remove
    rw [hname]
    have g0 : getattrT m name = some wb := by
      rw [getattrT_buffer _ _ ha0 hp0, hwb]
    simp only [g0]
    have d1 : delattrE m name = .ok { m with buffers := removeEntry m.buffers name } := by
      unfold delattrE
      rw [hp0]
      simp [hb0]
    rw [d1, ok_bind]
    have d2 : delattrE { m with buffers := removeEntry m.buffers name } (name ++ "_u")
        = .ok { m with buffers := removeEntry (removeEntry m.buffers name) (name ++ "_u") } := by
      unfold delattrE
      simp only [hpu]
      rw [lookupS_removeEntry_ne _ _ _ (Ne.symm (name_ne_u name))]
      simp [hbu]
    rw [d2, ok_bind]
    have d3 : delattrE { m with buffers := removeEntry (removeEntry m.buffers name) (name ++ "_u") } (name ++ "_orig") = .ok { { m with buffers := removeEntry (removeEntry m.buffers name) (name ++ "_u") } with params := removeEntry m.params (name ++ "_orig") } := by
      unfold delattrE
      simp [hpo]
    rw [d3, ok_bind, map_ok]
    exact ⟨_, rfl⟩

/-- C4: the singular-vector estimates are unit vectors, within the epsilon
floor of `normalize`: whenever the vector handed to `normalize` has L2 norm
at least `eps`, the stored result has L2 norm exactly 1 (exact real
arithmetic).  The first conjunct covers the `u` and `v` buffers registered
at attach time by `SpectralNorm.apply`; the second covers each
power-iteration update performed by the loop of `compute_weight` (one
`powerIterStep`): the updated `v` is unit-norm when its normalize input
clears the floor, and likewise the updated `u`. -/
theorem C4_unit_norm_invariant :
    (∀ (m : NNModule) (name : String) (dim : ℕ) (eps : ℝ) (u0 v0 : List ℝ)
      (m1 : NNModule) (fn : SpectralNorm),
      0 < eps → SpectralNorm.apply m name dim eps u0 v0 = .ok (m1, fn) →
      (eps ≤ norm2 u0 → ∀ t, lookupS m1.buffers (name ++ "_u") = some t →
        norm2 t.data = 1) ∧
      (eps ≤ norm2 v0 → ∀ t, lookupS m1.buffers (name ++ "_v") = some t →
        norm2 t.data = 1)) ∧
    (∀ (M : Mat) (eps : ℝ) (uv : Tensor × Tensor), 0 < eps →
      (eps ≤ norm2 (M.tmulVec uv.1.data) →
        norm2 (powerIterStep M eps uv).2.data = 1) ∧
      (eps ≤ norm2 (M.tmulVec uv.1.data) →
        eps ≤ norm2 (M.mulVec (normalizeL (M.tmulVec uv.1.data) eps)) →
        norm2 (powerIterStep M eps uv).1.data = 1)) := by
  constructor
  · intro m name dim eps u0 v0 m1 fn heps happly
    unfold SpectralNorm.apply at happly
    split at happly
    · exact absurd happly (by simp)
    · next weight heq =>
      split at happly
      · have hd : delattrE m name = .ok { m with params := removeEntry m.params name } := by
          unfold delattrE
          simp [heq]
        simp only [hd, ok_bind] at happly
        have hx := Except.ok.inj happly
        obtain ⟨h1, h2⟩ := Prod.ext_iff.mp hx
        subst h1
        constructor
        · intro hle t ht
          simp only [registerForwardPreHook, setMethodAttr, registerBuffer,
            registerParameter] at ht
          rw [lookupS_setEntry_ne _ _ _ _ (u_ne_v name), lookupS_setEntry_self] at ht
          obtain rfl := Option.some.inj ht
          exact norm2_normalizeL u0 eps heps hle
        · intro hle t ht
          simp only [registerForwardPreHook, setMethodAttr, registerBuffer,
            registerParameter] at ht
          rw [lookupS_setEntry_self] at ht
          obtain rfl := Option.some.inj ht
          exact norm2_normalizeL v0 eps heps hle
      · exact absurd happly (by simp)
  · intro M eps uv heps
    constructor
    · intro hle
      exact norm2_normalizeL _ eps heps hle
    · intro _ hle2
      exact norm2_normalizeL _ eps heps hle2

/-! ### A concrete round-trip: attach, one forward pass, remove -/

theorem bindE_ok {ε α β : Type} (a : α) (f : α → Except ε β) :
    (Except.ok a : Except ε α).bind f = f a := rfl

theorem normalizeL_one (eps : ℝ) (h : eps ≤ 1) : normalizeL [(1:ℝ)] eps = [1] := by
  unfold normalizeL norm2 sumSq
  simp only [List.map_cons, List.map_nil, List.sum_cons, List.sum_nil]
  rw [show (1:ℝ) * 1 + 0 = 1 by norm_num, Real.sqrt_one, max_eq_left h]
  norm_num

theorem norm2_single_one : norm2 [(1:ℝ)] = 1 := by
  unfold norm2 sumSq
  simp only [List.map_cons, List.map_nil, List.sum_cons, List.sum_nil]
  rw [show (1:ℝ) * 1 + 0 = 1 by norm_num, Real.sqrt_one]

/-- The wrapper configuration of the concrete example. -/
def fnC : SpectralNorm := ⟨"weight", 0, (1/2 : ℝ)⟩

/-- The original 1×1 weight parameter, value 2, requiring grad. -/
def tW0 : Tensor := ⟨[1, 1], [2], true, false⟩

/-- A training-mode host layer owning the single parameter `weight`. -/
def mC0 : NNModule := ⟨.other, true, [("weight", tW0)], [], [], [], 0⟩

/-- The `weight.data` buffer registered at attach time. -/
def tWd : Tensor := ⟨[1, 1], [2], false, false⟩

/-- The unit vector stored as `weight_u` and `weight_v`. -/
def tU : Tensor := ⟨[1], [1], false, false⟩

/-- The state of the example layer right after attach. -/
def mC1 : NNModule :=
  ⟨.other, true, [("weight_orig", tW0)],
    [("weight", tWd), ("weight_u", tU), ("weight_v", tU)],
    [(POWER_ITERATION_FN, .powerIterMethod fnC)], [(0, .sn fnC)], 1⟩

/-- The rescaled public weight after one forward pass: `2 / 2 = 1`. -/
def tWn : Tensor := ⟨[1, 1], [1], true, true⟩

/-- The state of the example layer after one forward pass. -/
def mC2 : NNModule :=
  ⟨.other, true, [("weight_orig", tW0)],
    [("weight", tWn), ("weight_u", tU), ("weight_v", tU)],
    [(POWER_ITERATION_FN, .powerIterMethod fnC)], [(0, .sn fnC)], 1⟩

/-- The state of the example layer after `remove_spectral_norm`: the
restored `weight` parameter holds the normalized value 1 (not the original
2), and the `weight_v` buffer and the power-iteration method survive. -/
def mC3 : NNModule :=
  ⟨.other, true, [("weight", ⟨[1, 1], [1], true, false⟩)],
    [("weight_v", tU)],
    [(POWER_ITERATION_FN, .powerIterMethod fnC)], [], 1⟩

theorem stepApply : SpectralNorm.apply mC0 "weight" 0 (1/2) [1] [1] = .ok (mC1, fnC) := by
  have hn : normalizeL [(1:ℝ)] (1/2) = [1] := normalizeL_one (1/2) (by norm_num)
  have hn' : normalizeL [(1:ℝ)] (2⁻¹) = [1] := by
    rw [← one_div]
    exact hn
  unfold SpectralNorm.apply mC0 mC1 fnC tW0 tWd tU
  simp [lookupS, delattrE, registerParameter, registerBuffer, setMethodAttr,
    registerForwardPreHook, setEntry, removeEntry, Tensor.dataTensor, hn, hn',
    POWER_ITERATION_FN, ok_bind]

theorem stepComputeWeight : SpectralNorm.compute_weight fnC mC1 0 = .ok mC2 := by
  unfold SpectralNorm.compute_weight mC1 mC2 fnC tW0 tWd tU tWn
  simp [getattrT, lookupS, setattrT, setEntry, powerIterLoop, computeSigma, dotL,
    Mat.mulVec, Mat.entry, POWER_ITERATION_FN, ok_bind, List.range_succ]

theorem stepHook : SpectralNorm.call fnC mC1 = .ok mC2 := by
  unfold SpectralNorm.call
  rw [stepComputeWeight, ok_bind]
  rfl

theorem stepForward : runForwardPreHooks mC1 = .ok mC2 := by
  have h : runForwardPreHooks mC1 = (SpectralNorm.call fnC mC1).bind (runHooksList []) := rfl
  rw [h, stepHook, bindE_ok]
  rfl

theorem stepRemove : remove_spectral_norm mC2 "weight" = .ok mC3 := by
  have hrem : SpectralNorm.remove fnC mC2 = .ok
      ⟨.other, true, [("weight", ⟨[1, 1], [1], true, false⟩)],
        [("weight_v", tU)],
        [(POWER_ITERATION_FN, .powerIterMethod fnC)], [(0, .sn fnC)], 1⟩ := by
    unfold SpectralNorm.remove mC2 fnC tW0 tU tWn
    simp [getattrT, lookupS, delattrE, removeEntry, registerParameter, setEntry,
      Tensor.mkParam, POWER_ITERATION_FN, ok_bind]
  unfold remove_spectral_norm
  rw [show findSNHook mC2.pre_hooks "weight" = some (0, fnC) from rfl]
  simp only []
  rw [hrem, map_ok]
  rfl

/-- The full lifecycle on the concrete example: attach spectral
normalization to the `weight` parameter, run one forward pass (firing the
pre-hook), then remove spectral normalization. -/
def roundTrip : Except (PyError × NNModule) NNModule :=
  ((inplace_spectral_norm mC0 "weight" none (1/2) [1] [1]).bind runForwardPreHooks).bind
    (fun mm => remove_spectral_norm mm "weight")

theorem roundTrip_eq : roundTrip = .ok mC3 := by
  have h1 : inplace_spectral_norm mC0 "weight" none (1/2) [1] [1] = .ok mC1 := by
    have h0 : inplace_spectral_norm mC0 "weight" none (1/2) [1] [1]
        = (SpectralNorm.apply mC0 "weight" 0 (1/2) [1] [1]).map Prod.fst := rfl
    rw [h0, stepApply, map_ok]
  unfold roundTrip
  rw [h1, bindE_ok, stepForward, bindE_ok, stepRemove]

/-- C1 (code bug): the claimed round-trip property fails on the code.  On a
module whose `weight` parameter is the 1×1 tensor with value 2, attaching
spectral normalization, running one forward pass (so the pre-hook rescales
once with `sigma = 2`), and then removing it restores as the new `weight`
parameter the tensor with data `[1]` — the last normalized weight `W / sigma`
— and not the original data `[2]`: `SpectralNorm.remove` reads the public
attribute instead of the stored `weight_orig`.  With zero forward passes
the restored data would coincide; the quantification "regardless of how many
forward passes" is exactly what fails. -/
theorem C1_roundtrip_restores_normalized_not_original :
    roundTrip = .ok mC3 ∧
    (lookupS mC3.params "weight").map Tensor.data = some [(1:ℝ)] ∧
    (lookupS mC0.params "weight").map Tensor.data = some [(2:ℝ)] ∧
    [(1:ℝ)] ≠ [(2:ℝ)] := by
  refine ⟨roundTrip_eq, rfl, rfl, ?_⟩
  norm_num

/-- C2 (code bug): after the same attach / forward / remove lifecycle, the
final module still carries the `weight_v` buffer (the `remove` of the code
deletes only the public name, `weight_u` and `weight_orig`), while the
restored `weight` parameter holds the normalized data `[1]` rather than the
original `[2]`.  The parts of the claim that do hold are also exhibited:
`weight_u` and `weight_orig` are gone and the pre-invocation callback is
deregistered. -/
theorem C2_remove_leaves_v_and_restores_current :
    roundTrip = .ok mC3 ∧
    (lookupS mC3.buffers ("weight" ++ "_v")).isSome = true ∧
    lookupS mC3.buffers ("weight" ++ "_u") = none ∧
    lookupS mC3.params ("weight" ++ "_orig") = none ∧
    findSNHook mC3.pre_hooks "weight" = none ∧
    (lookupS mC3.params "weight").map Tensor.data = some [(1:ℝ)] ∧
    [(1:ℝ)] ≠ [(2:ℝ)] := by
  refine ⟨roundTrip_eq, rfl, rfl, rfl, rfl, rfl, ?_⟩
  norm_num

/-! ### C10: the sigma division has no zero guard -/

/-- An all-zero 2×2 weight tensor. -/
def tZ : Tensor := ⟨[2, 2], [0, 0, 0, 0], false, false⟩

/-- A unit vector of length 2 used as the carried `u` and `v`. -/
def tUZ : Tensor := ⟨[2], [1, 0], false, false⟩

/-- An attached module whose original weight is all-zero. -/
def mZ : NNModule :=
  ⟨.other, true, [("weight_orig", tZ)],
    [("weight", tZ), ("weight_u", tUZ), ("weight_v", tUZ)], [], [], 0⟩

/-- The reshaped matrix of the all-zero weight. -/
def MZ : Mat := ⟨2, 2, [0, 0, 0, 0]⟩

/-- C10: the final rescaling step of `compute_weight` divides by `sigma`
with no epsilon floor or zero guard.  On an all-zero weight the Rayleigh
quotient `sigma = u^T M v` is exactly 0, yet `compute_weight` succeeds (no
error is raised) and the public weight it stores is literally the
elementwise division of the original data by that zero `sigma` (in the
IEEE arithmetic of the source this produces non-finite entries; in the exact
real model the division by zero is still performed, only `normalize` on
`u` and `v` is epsilon-floored). -/
theorem C10_division_by_zero_sigma :
    computeSigma MZ [1, 0] [1, 0] = 0 ∧
    (∃ mf t, SpectralNorm.compute_weight ⟨"weight", 0, (1/2)⟩ mZ 0 = .ok mf ∧
      lookupS mf.buffers "weight" = some t ∧
      t.data = [(0:ℝ), 0, 0, 0].map (fun a => a / computeSigma MZ [1, 0] [1, 0])) := by
  have hs : computeSigma MZ [1, 0] [1, 0] = 0 := by
    simp [computeSigma, dotL, Mat.mulVec, Mat.entry, MZ, List.range_succ]
  have hcw : SpectralNorm.compute_weight ⟨"weight", 0, (1/2)⟩ mZ 0
      = .ok ⟨.other, true, [("weight_orig", tZ)],
          [("weight", ⟨[2, 2], [0, 0, 0, 0], false, false⟩),
           ("weight_u", tUZ), ("weight_v", tUZ)], [], [], 0⟩ := by
    unfold SpectralNorm.compute_weight mZ tZ tUZ
    simp [getattrT, lookupS, setattrT, setEntry, powerIterLoop, computeSigma, dotL,
      Mat.mulVec, Mat.entry, ok_bind, List.range_succ]
  refine ⟨hs, _, ⟨[2, 2], [0, 0, 0, 0], false, false⟩, hcw, rfl, ?_⟩
  rw [hs]
  simp

/-! ### Witnesses -/

/-- Witness for C3 at the concrete attached module. -/
theorem C3_witness :
    getattrT mC1 (fnC.name ++ "_orig") = some tW0 ∧
    tW0.data.length = tW0.shape.prod ∧ tW0.shape ≠ [] ∧
    SpectralNorm.compute_weight fnC mC1 1 = SpectralNorm.compute_weight_spec fnC mC1 1 := by
  have hg : getattrT mC1 (fnC.name ++ "_orig") = some tW0 := rfl
  have hlen : tW0.data.length = tW0.shape.prod := rfl
  have hne : tW0.shape ≠ [] := by decide
  exact ⟨hg, hlen, hne, C3_compute_weight_matches_spec fnC mC1 1 tW0 hg hlen hne⟩

/-- Witness for C4 at the concrete draws and one-by-one matrix. -/
theorem C4_witness :
    (0:ℝ) < 1/2 ∧ (1/2:ℝ) ≤ norm2 [1] ∧
    SpectralNorm.apply mC0 "weight" 0 (1/2) [1] [1] = .ok (mC1, fnC) ∧
    norm2 tU.data = 1 ∧
    (1/2:ℝ) ≤ norm2 (Mat.tmulVec ⟨1, 1, [1]⟩ tU.data) ∧
    (1/2:ℝ) ≤ norm2 (Mat.mulVec ⟨1, 1, [1]⟩
      (normalizeL (Mat.tmulVec ⟨1, 1, [1]⟩ tU.data) (1/2))) ∧
    norm2 (powerIterStep ⟨1, 1, [1]⟩ (1/2) (tU, tU)).2.data = 1 ∧
    norm2 (powerIterStep ⟨1, 1, [1]⟩ (1/2) (tU, tU)).1.data = 1 := by
  have heps : (0:ℝ) < 1/2 := by norm_num
  have h1 : norm2 [(1:ℝ)] = 1 := norm2_single_one
  have hle : (1/2:ℝ) ≤ norm2 [1] := by
    rw [h1]
    norm_num
  have htm : Mat.tmulVec ⟨1, 1, [1]⟩ tU.data = [1] := by
    simp [Mat.tmulVec, Mat.entry, tU, List.range_succ]
  have hmv : Mat.mulVec ⟨1, 1, [1]⟩ [(1:ℝ)] = [1] := by
    simp [Mat.mulVec, Mat.entry, List.range_succ]
  have hnz : normalizeL (Mat.tmulVec ⟨1, 1, [1]⟩ tU.data) (1/2) = [1] := by
    rw [htm]
    exact normalizeL_one (1/2) (by norm_num)
  have hle1 : (1/2:ℝ) ≤ norm2 (Mat.tmulVec ⟨1, 1, [1]⟩ tU.data) := by
    rw [htm, h1]
    norm_num
  have hle2 : (1/2:ℝ) ≤ norm2 (Mat.mulVec ⟨1, 1, [1]⟩
      (normalizeL (Mat.tmulVec ⟨1, 1, [1]⟩ tU.data) (1/2))) := by
    rw [hnz, hmv, h1]
    norm_num
  have happ := C4_unit_norm_invariant.1 mC0 "weight" 0 (1/2) [1] [1] mC1 fnC heps stepApply
  have hstep := C4_unit_norm_invariant.2 ⟨1, 1, [1]⟩ (1/2) (tU, tU) heps
  exact ⟨heps, hle, stepApply, happ.1 hle tU rfl, hle1, hle2,
    hstep.1 hle1, hstep.2 hle1 hle2⟩

/-- Witness for C5 at the concrete attached module. -/
theorem C5_witness :
    Attached mC1 "weight" ∧
    (∃ m1, SpectralNorm.compute_weight fnC mC1 0 = .ok m1 ∧
      SpectralNorm.compute_weight fnC m1 0 = .ok m1 ∧
      getattrT m1 (fnC.name ++ "_u") = getattrT mC1 (fnC.name ++ "_u") ∧
      getattrT m1 (fnC.name ++ "_v") = getattrT mC1 (fnC.name ++ "_v")) := by
  have hatt : Attached mC1 "weight" := by
    unfold Attached
    decide
  exact ⟨hatt, C5_zero_iteration_idempotent fnC mC1 hatt⟩

/-- Witness for C6: the negative count fails both ways at a concrete input,
and a concrete non-negative failure is a different exception. -/
theorem C6_witness :
    SpectralNorm.compute_weight fnC mC0 (-3) = .error (.valueError (negIterMsg (-3)), mC0) ∧
    callPowerIterationMethod mC1 (-3) = .error (.valueError (negIterMsg (-3)), mC1) ∧
    SpectralNorm.compute_weight fnC mC0 0 = .error (.attributeError ("weight" ++ "_orig"), mC0) ∧
    PyError.attributeError ("weight" ++ "_orig") ≠ .valueError (negIterMsg 7) := by
  have hcw0 : SpectralNorm.compute_weight fnC mC0 0
      = .error (.attributeError ("weight" ++ "_orig"), mC0) := rfl
  exact ⟨C6_negative_iterations_value_error.1 fnC mC0 (-3) (by decide),
    C6_negative_iterations_value_error.2.1 mC1 fnC (-3) rfl (by decide),
    hcw0,
    C6_negative_iterations_value_error.2.2 fnC mC0 0 (by decide) _ _ hcw0 7⟩

/-- Witness for C7: removal fails on the bare module and succeeds on the
attached one. -/
theorem C7_witness :
    remove_spectral_norm mC0 "weight" = .error (.valueError (notFoundMsg "weight"), mC0) ∧
    (∃ m2, remove_spectral_norm mC2 "weight" = .ok m2) := by
  have hatt2 : Attached mC2 "weight" := by
    unfold Attached
    decide
  exact ⟨C7_remove_not_found_or_ok.1 mC0 "weight" rfl,
    C7_remove_not_found_or_ok.2 mC2 "weight" 0 fnC rfl hatt2⟩

/-- The attached example module in inference mode. -/
def mC8 : NNModule :=
  ⟨.other, false, [("weight_orig", tW0)],
    [("weight", tWd), ("weight_u", tU), ("weight_v", tU)],
    [(POWER_ITERATION_FN, .powerIterMethod fnC)], [(0, .sn fnC)], 1⟩

/-- Witness for C8 at the concrete inference-mode attached module. -/
theorem C8_witness :
    Attached mC8 "weight" ∧ mC8.training = false ∧
    (∃ m1 mf, SpectralNorm.compute_weight fnC mC8 0 = .ok m1 ∧
      SpectralNorm.call fnC mC8 = .ok mf ∧
      getattrT mf (fnC.name ++ "_u") = getattrT mC8 (fnC.name ++ "_u") ∧
      getattrT mf (fnC.name ++ "_v") = getattrT mC8 (fnC.name ++ "_v") ∧
      (mC8.training = true → mf = m1) ∧
      (mC8.training = false →
        ∃ worig w1, lookupS mC8.params (fnC.name ++ "_orig") = some worig ∧
          getattrT m1 fnC.name = some w1 ∧
          getattrT mf fnC.name = some ((w1.detach).requires_grad_ worig.requires_grad) ∧
          ((w1.detach).requires_grad_ worig.requires_grad).graph = false ∧
          ((w1.detach).requires_grad_ worig.requires_grad).requires_grad
            = worig.requires_grad ∧
          ((w1.detach).requires_grad_ worig.requires_grad).data = w1.data)) := by
  have hatt : Attached mC8 "weight" := by
    unfold Attached
    decide
  exact ⟨hatt, rfl, C8_hook_zero_iterations_and_detach fnC mC8 hatt⟩
end
